import Mathlib

/-!
Shallow embedding of `include/dll/neural/recurrent_layer_impl.hpp` from the dll
repository: a recurrent (RNN) layer with two weight matrices `w` (hidden-to-hidden,
H x H) and `u` (input-to-hidden, H x S), a forward pass threading a hidden state
through `time_steps` time steps, and a truncated-BPTT gradient computation that walks
time backward in a do-while loop.

Modelling choices:
- the configurable scalar element type `weight` is modelled as the exact rationals;
- etl vectors and matrices are total functions from natural-number indices, with the
  summed dimension passed explicitly to each product (the C++ code indexes with
  `size_t` and no bounds checking, so out-of-range indices are a separate safety
  question, settled by the theorem for claim C5);
- elementwise activation is a scalar function `act`, and `f_derivative` is a scalar
  function `deriv` evaluated at the post-activation output, exactly as the source
  evaluates `f_derivative<activation_function>(context.output(b)(t))`.
-/

namespace RecurrentLayerSpec

/-- Scalar element type of the layer (the configurable `weight` type of the
descriptor), modelled as exact rationals. -/
abbrev Scalar := ℚ

/-- A vector, as a total function from natural-number indices. -/
abbrev Vect := ℕ → Scalar

/-- A matrix, as a total function from pairs of natural-number indices. -/
abbrev Matr := ℕ → ℕ → Scalar

/-- Matrix-vector product with `n` summed columns: `(A * v) i = Σ_{j < n} A i j * v j`. -/
def matVec (n : ℕ) (A : Matr) (v : Vect) : Vect :=
  fun i => ∑ j ∈ Finset.range n, A i j * v j

/-- Transposed matrix-vector product `trans(A) * v` with `n` summed rows. -/
def matTVec (n : ℕ) (A : Matr) (v : Vect) : Vect :=
  fun i => ∑ j ∈ Finset.range n, A j i * v j

/-- Outer product `etl::outer(a, b)`, with `(outer a b) i j = a i * b j`. -/
def outerM (a b : Vect) : Matr := fun i j => a i * b j

/-- The layer `recurrent_layer_impl`: the compile-time dimensions `time_steps` (T),
`sequence_length` (S) and `hidden_units` (H), the activation function and its
derivative (the derivative expressed in terms of the post-activation output, as
`f_derivative` is), and the two weight matrices `w` (H x H) and `u` (H x S). -/
structure RecurrentLayer where
  time_steps : ℕ
  sequence_length : ℕ
  hidden_units : ℕ
  act : Scalar → Scalar
  deriv : Scalar → Scalar
  w : Matr
  u : Matr

/-- Hidden-state sequence of one sample, as computed by the two time loops of
`forward_batch`: `output(b)(0) = f_activate(u * x(b)(0))` (no recurrent term at
`t = 0`), and for `t ≥ 1` in increasing order
`output(b)(t) = f_activate(u * x(b)(t) + w * output(b)(t-1))`. -/
def hseq (L : RecurrentLayer) (x : ℕ → Vect) : ℕ → Vect
  | 0 => fun i => L.act (matVec L.sequence_length L.u (x 0) i)
  | t + 1 => fun i =>
      L.act (matVec L.sequence_length L.u (x (t + 1)) i +
        matVec L.hidden_units L.w (hseq L x t) i)

/-- The forward pass `forward_batch(output, x)`. `Bout` is the batch dimension of the
pre-allocated output buffer `out0` and `B = Batch = etl::dim<0>(x)` the batch dimension
of the input. The `cpp_assert` that the two batch dimensions agree is a fatal
precondition failure, modelled as `none`. Otherwise the buffer is zeroed
(`output = 0`) and the two time loops overwrite slice `(b, t)` for every `b < Batch`
and every `t < time_steps` in increasing `t`, so each slice ends up holding the
recursion value `hseq L (x b) t`; slices outside the written range keep the zero from
the initial assignment. -/
def forward_batch (L : RecurrentLayer) (Bout : ℕ) (out0 : ℕ → ℕ → Vect) (B : ℕ)
    (x : ℕ → ℕ → Vect) : Option (ℕ → ℕ → Vect) :=
  if Bout = B then
    some (fun b t => if b < B ∧ t < L.time_steps then hseq L (x b) t else fun _ => 0)
  else none

/-- The slice of the training context `sgd_context` that the layer reads and writes:
`input` (B x T x S), `output` (B x T x H), `errors` (B x T x H), and the two gradient
accumulators reached through `context.up.context` (`w_grad` of shape H x H and
`u_grad` of shape H x S). -/
structure SGDContext where
  input : ℕ → ℕ → Vect
  output : ℕ → ℕ → Vect
  errors : ℕ → ℕ → Vect
  w_grad : Matr
  u_grad : Matr

/-- The stubbed `backward_batch(output, context)`: apart from starting a timer, the
body only marks both arguments as unused (the actual propagation is commented out
behind a TODO), so the call leaves the output expression and the context unchanged. -/
def backward_batch (out : ℕ → ℕ → Vect) (ctx : SGDContext) :
    (ℕ → ℕ → Vect) × SGDContext :=
  (out, ctx)

/-- Decrement of a `size_t` value in 64-bit unsigned arithmetic: `n - 1` modulo
`2 ^ 64`, so `0 - 1` wraps to `2 ^ 64 - 1`. -/
def sizeTSub1 (n : ℕ) : ℕ := (n + (2 ^ 64 - 1)) % 2 ^ 64

/-- Step values at which the body of the backward do-while loop of
`compute_gradients` executes: the body runs once at `step`, then `step` is
decremented and the loop repeats while `step > last`. The list follows the loop as
long as the decrement does not underflow; a body execution at `step = 0` (the
out-of-range case settled by the theorem for claim C5) would wrap the `size_t`
counter, and the list stops there instead. -/
def bpttSteps (last : ℕ) : ℕ → List ℕ
  | 0 => [0]
  | step + 1 => (step + 1) :: (if step > last then bpttSteps last step else [])

/-- Body of the backward do-while loop, acting on the state
`(w_grad, u_grad, delta_t)`:
`w_grad += etl::outer(delta_t, context.output(b)(step - 1))`,
`u_grad += etl::outer(delta_t, context.input(b)(step - 1))`, then
`delta_t = trans(w) * delta_t >> f_derivative(context.output(b)(step - 1))`
(`>>` is the elementwise product). The index `step - 1` is truncated natural-number
subtraction, which agrees with `size_t` subtraction whenever `step ≥ 1`; the
`step = 0` execution is the out-of-range case settled by the theorem for claim C5. -/
def bpttStep (L : RecurrentLayer) (x h : ℕ → Vect) (st : Matr × Matr × Vect)
    (step : ℕ) : Matr × Matr × Vect :=
  (st.1 + outerM st.2.2 (h (step - 1)),
   st.2.1 + outerM st.2.2 (x (step - 1)),
   fun i => matTVec L.hidden_units L.w st.2.2 i * L.deriv (h (step - 1) i))

/-- Initial value of `delta_t` for one sample:
`context.errors(b)(step) >> f_derivative(context.output(b)(step))` with
`step = time_steps - 1`. -/
def initialDelta (L : RecurrentLayer) (h e : ℕ → Vect) : Vect :=
  fun i => e (L.time_steps - 1) i * L.deriv (h (L.time_steps - 1) i)

/-- Backward walk of one sample `b`: starting from `initialDelta` at
`step = time_steps - 1`, fold the do-while body over the executed steps,
accumulating into the incoming accumulators `wg` and `ug`. The result is the
triple `(w_grad, u_grad, final delta_t)`. -/
def sampleWalk (L : RecurrentLayer) (last : ℕ) (x h e : ℕ → Vect) (wg ug : Matr) :
    Matr × Matr × Vect :=
  (bpttSteps last (L.time_steps - 1)).foldl (bpttStep L x h)
    (wg, ug, initialDelta L h e)

/-- The loop bound `last_step = std::max(int(time_steps) - int(truncate), 0)`. -/
def lastStep (T truncate : ℕ) : ℕ := (max ((T : ℤ) - (truncate : ℤ)) 0).toNat

/-- The gradient computation `compute_gradients(context)` with the local constant
`truncate` left as a parameter (the source fixes it to `time_steps`; see
`compute_gradients`). The two accumulators are zeroed first
(`w_grad = 0; u_grad = 0`), then for each sample `b < Batch` the backward walk runs
from `step = time_steps - 1` while `step > last_step`, accumulating into the shared
accumulators, with `delta_t` freshly computed for each sample. Every other context
field is left unchanged. -/
def compute_gradients_trunc (L : RecurrentLayer) (truncate B : ℕ) (ctx : SGDContext) :
    SGDContext :=
  let last := lastStep L.time_steps truncate
  let g := (List.range B).foldl
    (fun (g : Matr × Matr) b =>
      let r := sampleWalk L last (ctx.input b) (ctx.output b) (ctx.errors b) g.1 g.2
      (r.1, r.2.1))
    ((0 : Matr), (0 : Matr))
  { ctx with w_grad := g.1, u_grad := g.2 }

/-- The gradient computation as written in the source: `truncate = time_steps`
(the `TODO Truncate` policy), i.e. a full-length backward walk with
`last_step = 0`. `B` is `Batch = etl::dim<0>(context.errors)`. -/
def compute_gradients (L : RecurrentLayer) (B : ℕ) (ctx : SGDContext) : SGDContext :=
  compute_gradients_trunc L L.time_steps B ctx

/-- Step values executed by the backward do-while loop of `compute_gradients` as
written (with the `truncate = time_steps` policy). -/
def gradSteps (L : RecurrentLayer) : List ℕ :=
  bpttSteps (lastStep L.time_steps L.time_steps) (L.time_steps - 1)

/-- Written from the spec (section 4.4): the delta sequence of the backward
time-walk, indexed by the number `k` of loop iterations already executed, so
`specDelta L h e k` is the delta held at step `t = time_steps - 1 - k`. At `k = 0`
it is `errors[b][T-1] ⊙ activation_derivative(output[b][T-1])`, and each iteration
propagates `delta = (W transposed · delta) ⊙ activation_derivative(output[b][t-1])`. -/
def specDelta (L : RecurrentLayer) (h e : ℕ → Vect) : ℕ → Vect
  | 0 => fun i => e (L.time_steps - 1) i * L.deriv (h (L.time_steps - 1) i)
  | k + 1 => fun i =>
      matTVec L.hidden_units L.w (specDelta L h e k) i *
        L.deriv (h (L.time_steps - 1 - (k + 1)) i)

/-- Written from the spec (section 4.4): the total W-gradient contribution of one
sample for the full-length walk, the sum over the executed iterations `k` (at step
`t = time_steps - 1 - k`) of `outer(delta, output[b][t-1])`; the walked iterations
are `t = T-1` down to `t = 1`, i.e. `k = 0` up to `k = T-2`, and
`t - 1 = time_steps - 2 - k`. -/
def specGradW (L : RecurrentLayer) (h e : ℕ → Vect) : Matr :=
  ∑ k ∈ Finset.range (L.time_steps - 1),
    outerM (specDelta L h e k) (h (L.time_steps - 2 - k))

/-- Written from the spec (section 4.4): the total U-gradient contribution of one
sample for the full-length walk, the sum over the executed iterations `k` of
`outer(delta, input[b][t-1])` (the input indexed one step behind the current error). -/
def specGradU (L : RecurrentLayer) (x h e : ℕ → Vect) : Matr :=
  ∑ k ∈ Finset.range (L.time_steps - 1),
    outerM (specDelta L h e k) (x (L.time_steps - 2 - k))

/-- One sample of a training context: its input, output and errors slices. -/
structure SampleData where
  input : ℕ → Vect
  output : ℕ → Vect
  errors : ℕ → Vect

/-- A training context holding the batch made of the two given samples, in order,
with cleared accumulators. -/
def pairCtx (s1 s2 : SampleData) : SGDContext where
  input := fun b => if b = 0 then s1.input else s2.input
  output := fun b => if b = 0 then s1.output else s2.output
  errors := fun b => if b = 0 then s1.errors else s2.errors
  w_grad := 0
  u_grad := 0

/-- A training context holding the single given sample, with cleared accumulators. -/
def singleCtx (s : SampleData) : SGDContext where
  input := fun _ => s.input
  output := fun _ => s.output
  errors := fun _ => s.errors
  w_grad := 0
  u_grad := 0

/-- The concrete scenario of section 8: T = 2, S = 1, H = 1, identity activation
(whose `f_derivative` is constantly 1), `W = [[1/2]]` and `U = [[2]]`. -/
def scenarioLayer : RecurrentLayer where
  time_steps := 2
  sequence_length := 1
  hidden_units := 1
  act := fun s => s
  deriv := fun _ => 1
  w := fun _ _ => 1 / 2
  u := fun _ _ => 2

/-- The scenario input batch: one sample `x = [[1], [1]]` (two time steps, one
feature each). -/
def scenarioInput : ℕ → ℕ → Vect := fun _ _ _ => 1

/-- The scenario training context: the input, the output produced by the forward
pass, `errors[1] = [1]` with the other error slice zero, and cleared accumulators. -/
def scenarioCtx : SGDContext where
  input := scenarioInput
  output := fun b t => hseq scenarioLayer (scenarioInput b) t
  errors := fun _ t _ => if t = 1 then 1 else 0
  w_grad := 0
  u_grad := 0

/-- Input sample of the counterexample scenario for claim C2: `x[0] = [1]`,
`x[1] = [2]` (distinct values at the two time steps, to expose the indexing of the
U-gradient accumulation). -/
def c2X : ℕ → Vect := fun t _ => if t = 0 then 1 else 2

/-- Layer of the counterexample scenario for claim C2: T = 2, S = 1, H = 1,
identity activation, `W = [[1/2]]`, `U = [[2]]`. -/
def c2Layer : RecurrentLayer where
  time_steps := 2
  sequence_length := 1
  hidden_units := 1
  act := fun s => s
  deriv := fun _ => 1
  w := fun _ _ => 1 / 2
  u := fun _ _ => 2

/-- Training context of the counterexample scenario for claim C2: a single sample
with input `c2X`, the output produced by the forward pass, `errors[1] = [1]` (so the
loss gradient with respect to the layer output is 1 at the final step and the loss
is the final hidden state itself), and cleared accumulators. -/
def c2Ctx : SGDContext where
  input := fun _ => c2X
  output := fun _ t => hseq c2Layer c2X t
  errors := fun _ t _ => if t = 1 then 1 else 0
  w_grad := 0
  u_grad := 0

/-- A second training context for claim C2, equal to `c2Ctx` on the input, the
output and the final error slice, but with different error values at the earlier
time step and different incoming accumulator contents. -/
def c2CtxB : SGDContext where
  input := fun _ => c2X
  output := fun _ t => hseq c2Layer c2X t
  errors := fun _ t _ => if t = 1 then 1 else 7
  w_grad := fun _ _ => 5
  u_grad := fun _ _ => 9

/-- The loss of the C2 counterexample scenario as a function of the single entry of
`U`: with `errors[0][T-1] = 1` the loss is the final hidden state itself, computed
through the embedded forward recursion `hseq` with the `U` entry set to `v`. -/
def c2LossU (v : Scalar) : Scalar :=
  hseq { c2Layer with u := fun _ _ => v } c2X 1 0

/-- The loss of the C2 counterexample scenario as a function of the single entry of
`W`, computed through the embedded forward recursion `hseq` with the `W` entry set
to `v`. -/
def c2LossW (v : Scalar) : Scalar :=
  hseq { c2Layer with w := fun _ _ => v } c2X 1 0

/-- The bound `last_step` is truncated natural-number subtraction of the truncation
parameter from the step count. -/
lemma lastStep_eq (T tr : ℕ) : lastStep T tr = T - tr := by
  unfold lastStep; omega

/-- With the as-written policy `truncate = time_steps`, the walk runs all the way
down: `last_step = 0`. -/
lemma lastStep_self (T : ℕ) : lastStep T T = 0 := by
  rw [lastStep_eq]; omega

/-- The gradient components of the backward walk are affine in the incoming
accumulators: folding the loop body from `(wg, ug, d)` adds the same contributions
as folding it from cleared accumulators, and the delta component does not depend on
the accumulators at all. -/
lemma foldl_bpttStep_shift (L : RecurrentLayer) (x h : ℕ → Vect) (steps : List ℕ)
    (wg ug : Matr) (d : Vect) :
    steps.foldl (bpttStep L x h) (wg, ug, d) =
      (wg + (steps.foldl (bpttStep L x h) (0, 0, d)).1,
       ug + (steps.foldl (bpttStep L x h) (0, 0, d)).2.1,
       (steps.foldl (bpttStep L x h) (0, 0, d)).2.2) := by
  induction steps generalizing wg ug d with
  | nil => simp
  | cons s rest ih =>
      simp only [List.foldl_cons, bpttStep]
      rw [ih (wg + outerM d (h (s - 1))) (ug + outerM d (x (s - 1))),
        ih (0 + outerM d (h (s - 1))) (0 + outerM d (x (s - 1)))]
      simp [add_assoc]

/-- The backward walk of one sample, restated through the walk from cleared
accumulators. -/
lemma sampleWalk_shift (L : RecurrentLayer) (last : ℕ) (x h e : ℕ → Vect)
    (wg ug : Matr) :
    sampleWalk L last x h e wg ug =
      (wg + (sampleWalk L last x h e 0 0).1,
       ug + (sampleWalk L last x h e 0 0).2.1,
       (sampleWalk L last x h e 0 0).2.2) := by
  unfold sampleWalk
  exact foldl_bpttStep_shift L x h _ wg ug _

/-- The batch loop of `compute_gradients` accumulates a plain sum of independent
per-sample contributions. -/
lemma gradFold_eq_sum (L : RecurrentLayer) (last B : ℕ) (inp out err : ℕ → ℕ → Vect) :
    (List.range B).foldl
        (fun (g : Matr × Matr) b =>
          let r := sampleWalk L last (inp b) (out b) (err b) g.1 g.2
          (r.1, r.2.1)) ((0 : Matr), (0 : Matr)) =
      (∑ b ∈ Finset.range B, (sampleWalk L last (inp b) (out b) (err b) 0 0).1,
       ∑ b ∈ Finset.range B, (sampleWalk L last (inp b) (out b) (err b) 0 0).2.1) := by
  induction B with
  | zero => simp
  | succ n ih =>
      rw [List.range_succ, List.foldl_append, ih]
      simp only [List.foldl_cons, List.foldl_nil]
      rw [sampleWalk_shift]
      simp [Finset.sum_range_succ]

/-- The gradient computation, for any truncation parameter, equals the batch-summed
per-sample walks started from cleared accumulators; all other context fields are
returned unchanged. -/
lemma compute_gradients_trunc_eq_sum (L : RecurrentLayer) (truncate B : ℕ)
    (ctx : SGDContext) :
    compute_gradients_trunc L truncate B ctx =
      { ctx with
        w_grad := ∑ b ∈ Finset.range B,
          (sampleWalk L (lastStep L.time_steps truncate)
            (ctx.input b) (ctx.output b) (ctx.errors b) 0 0).1,
        u_grad := ∑ b ∈ Finset.range B,
          (sampleWalk L (lastStep L.time_steps truncate)
            (ctx.input b) (ctx.output b) (ctx.errors b) 0 0).2.1 } := by
  simp only [compute_gradients_trunc]
  rw [gradFold_eq_sum]

/-- A do-while loop whose bound already equals the starting step executes its body
exactly once. -/
lemma bpttSteps_self (n : ℕ) : bpttSteps n n = [n] := by
  cases n with
  | zero => rfl
  | succ m => simp [bpttSteps]

/-- Unfolding of the step list while the loop condition still holds. -/
lemma bpttSteps_cons (last step : ℕ) (h : last < step) :
    bpttSteps last (step + 1) = (step + 1) :: bpttSteps last step := by
  simp [bpttSteps, h]

/-- Every executed step of a walk whose bound is below its start lies strictly
above the bound and at most at the start. -/
lemma mem_bpttSteps (last step : ℕ) (h : last < step) :
    ∀ s ∈ bpttSteps last step, last < s ∧ s ≤ step := by
  induction step with
  | zero => omega
  | succ n ih =>
      intro s hs
      rw [bpttSteps] at hs
      rcases List.mem_cons.mp hs with h1 | h2
      · omega
      · by_cases hc : last < n
        · have := ih hc s (by simpa [hc] using h2)
          omega
        · simp [Nat.not_lt.mp hc, Nat.lt_irrefl] at h2
          omega

/-- In-bounds `size_t` decrement agrees with natural-number subtraction. -/
lemma sizeTSub1_eq (n : ℕ) (h1 : 1 ≤ n) (h2 : n < 2 ^ 64) : sizeTSub1 n = n - 1 := by
  unfold sizeTSub1; omega

/-- The `size_t` decrement of zero wraps around to the largest 64-bit value. -/
lemma sizeTSub1_zero : sizeTSub1 0 = 2 ^ 64 - 1 := by
  unfold sizeTSub1; omega

/-- The do-while loop always executes its body at least once, first at the starting
step value. -/
lemma bpttSteps_head (last step : ℕ) : ∃ tl, bpttSteps last step = step :: tl := by
  cases step with
  | zero => exact ⟨[], rfl⟩
  | succ m => exact ⟨_, rfl⟩

/-- Invariant of the backward walk: folding the loop body over the steps still to be
executed, starting `n` iterations before the end of a full-length walk with the delta
the spec recursion prescribes there, accumulates exactly the spec sums of the
remaining iterations and ends with the delta of the final iteration. -/
lemma sampleWalk_spec_aux (L : RecurrentLayer) (x h e : ℕ → Vect)
    (hT : 2 ≤ L.time_steps) :
    ∀ n, 1 ≤ n → n ≤ L.time_steps - 1 → ∀ wg ug,
      (bpttSteps 0 n).foldl (bpttStep L x h)
          (wg, ug, specDelta L h e (L.time_steps - 1 - n)) =
        (wg + ∑ k ∈ Finset.Ico (L.time_steps - 1 - n) (L.time_steps - 1),
            outerM (specDelta L h e k) (h (L.time_steps - 2 - k)),
         ug + ∑ k ∈ Finset.Ico (L.time_steps - 1 - n) (L.time_steps - 1),
            outerM (specDelta L h e k) (x (L.time_steps - 2 - k)),
         specDelta L h e (L.time_steps - 1)) := by
  intro n
  induction n with
  | zero => omega
  | succ m ih =>
      intro h1 h2 wg ug
      by_cases hm : 1 ≤ m
      · rw [bpttSteps_cons 0 m hm]
        simp only [List.foldl_cons, bpttStep, Nat.add_sub_cancel]
        have ed : (fun i => matTVec L.hidden_units L.w
              (specDelta L h e (L.time_steps - 1 - (m + 1))) i * L.deriv (h m i)) =
            specDelta L h e (L.time_steps - 1 - m) := by
          have e5 : L.time_steps - 1 - m = (L.time_steps - 1 - (m + 1)) + 1 := by omega
          rw [e5]
          simp only [specDelta]
          rw [show L.time_steps - 1 - (L.time_steps - 1 - (m + 1) + 1) = m from by omega]
        rw [ed, ih hm (by omega)]
        rw [Finset.sum_eq_sum_Ico_succ_bot
            (show L.time_steps - 1 - (m + 1) < L.time_steps - 1 from by omega)
            (fun k => outerM (specDelta L h e k) (h (L.time_steps - 2 - k))),
          Finset.sum_eq_sum_Ico_succ_bot
            (show L.time_steps - 1 - (m + 1) < L.time_steps - 1 from by omega)
            (fun k => outerM (specDelta L h e k) (x (L.time_steps - 2 - k)))]
        rw [show L.time_steps - 1 - (m + 1) + 1 = L.time_steps - 1 - m from by omega,
          show L.time_steps - 2 - (L.time_steps - 1 - (m + 1)) = m from by omega]
        simp [add_assoc]
      · have hm0 : m = 0 := by omega
        subst hm0
        have hs : bpttSteps 0 1 = [1] := rfl
        simp only [hs, List.foldl_cons, List.foldl_nil, bpttStep]
        have e2 : L.time_steps - 1 - 1 = L.time_steps - 2 := by omega
        have e3 : L.time_steps - 1 = (L.time_steps - 2) + 1 := by omega
        refine congrArg₂ Prod.mk ?_ (congrArg₂ Prod.mk ?_ ?_)
        · rw [e2, e3, Nat.Ico_succ_singleton, Finset.sum_singleton, Nat.sub_self]
          norm_num
        · rw [e2, e3, Nat.Ico_succ_singleton, Finset.sum_singleton, Nat.sub_self]
          norm_num
        · rw [e2, e3]
          simp only [specDelta]
          rw [show L.time_steps - 1 - (L.time_steps - 2 + 1) = 0 from by omega]

/-- Claim C1: for every batch and every sample `b < Batch`, `forward_batch` fills the
output with the reference recursion: `h[b][0] = activation(U · x[b][0])` with no
recurrent contribution at `t = 0`, and `h[b][t] = activation(U · x[b][t] + W · h[b][t-1])`
for `1 ≤ t ≤ T-1`; each written sample equals the per-sample recursion `hseq` on its
own input alone, so the samples are computed independently of each other. -/
theorem forward_batch_recursion (L : RecurrentLayer) (Bout B : ℕ)
    (out0 x : ℕ → ℕ → Vect) (hB : Bout = B) (hT : 0 < L.time_steps) :
    ∃ out, forward_batch L Bout out0 B x = some out ∧
      (∀ b, b < B → ∀ i, out b 0 i = L.act (matVec L.sequence_length L.u (x b 0) i)) ∧
      (∀ b, b < B → ∀ t, 1 ≤ t → t < L.time_steps → ∀ i,
        out b t i = L.act (matVec L.sequence_length L.u (x b t) i +
          matVec L.hidden_units L.w (out b (t - 1)) i)) ∧
      (∀ b, b < B → ∀ t, t < L.time_steps → out b t = hseq L (x b) t) := by
  refine ⟨fun b t => if b < B ∧ t < L.time_steps then hseq L (x b) t else fun _ => 0,
    ?_, ?_, ?_, ?_⟩
  · simp [forward_batch, hB]
  · intro b hb i
    simp [hb, hT, hseq]
  · intro b hb t ht1 ht2 i
    obtain ⟨s, rfl⟩ : ∃ s, t = s + 1 := ⟨t - 1, by omega⟩
    simp [hb, ht2, show s < L.time_steps from by omega, hseq, Nat.add_sub_cancel]
  · intro b hb t ht
    simp [hb, ht]

/-- Witness for claim C1 at the concrete scenario layer with a batch of one sample. -/
theorem forward_batch_recursion_witness :
    ∃ out, forward_batch scenarioLayer 1 (fun _ _ _ => 0) 1 scenarioInput = some out ∧
      (∀ b, b < 1 → ∀ i, out b 0 i =
        scenarioLayer.act (matVec scenarioLayer.sequence_length scenarioLayer.u
          (scenarioInput b 0) i)) ∧
      (∀ b, b < 1 → ∀ t, 1 ≤ t → t < scenarioLayer.time_steps → ∀ i,
        out b t i = scenarioLayer.act (matVec scenarioLayer.sequence_length
          scenarioLayer.u (scenarioInput b t) i +
          matVec scenarioLayer.hidden_units scenarioLayer.w (out b (t - 1)) i)) ∧
      (∀ b, b < 1 → ∀ t, t < scenarioLayer.time_steps →
        out b t = hseq scenarioLayer (scenarioInput b) t) :=
  forward_batch_recursion scenarioLayer 1 1 (fun _ _ _ => 0) scenarioInput rfl (by decide)

/-- Claim C8: `forward_batch` is deterministic and its result does not depend on the
prior contents of the output buffer; the buffer is zeroed and every in-range slice is
overwritten, and the embedded computation is a pure function of the weights and the
input. -/
theorem forward_batch_deterministic (L : RecurrentLayer) (Bout B : ℕ)
    (bufA bufB x : ℕ → ℕ → Vect) :
    forward_batch L Bout bufA B x = forward_batch L Bout bufB B x := rfl

/-- Claim C9: `forward_batch` fails its assertion, fatally, exactly when the batch
dimension of the output buffer differs from that of the input; under the precondition
the assertion branch is unreachable and a result is produced. -/
theorem forward_batch_dim_assert (L : RecurrentLayer) (Bout B : ℕ)
    (out0 x : ℕ → ℕ → Vect) :
    (forward_batch L Bout out0 B x = none ↔ Bout ≠ B) ∧
    ((forward_batch L Bout out0 B x).isSome ↔ Bout = B) := by
  by_cases hB : Bout = B <;> simp [forward_batch, hB]

/-- Claim C10: the backward-to-previous-layer propagation `backward_batch` is a no-op
stub, leaving both the output expression and the training context unchanged. -/
theorem backward_batch_noop (out : ℕ → ℕ → Vect) (ctx : SGDContext) :
    backward_batch out ctx = (out, ctx) := rfl

/-- Claim C3: for every sample, the backward time-walk of `compute_gradients` (with
the as-written full-length truncation policy) performs exactly the per-step
operations of the spec: it starts from
`delta = errors[b][T-1] ⊙ activation_derivative(output[b][T-1])` at `t = T-1`, and
each iteration with `t > last_step` accumulates `outer(delta, output[b][t-1])` into
the W-gradient and `outer(delta, input[b][t-1])` into the U-gradient (the input
indexed one step behind the current error), then updates
`delta = (W transposed · delta) ⊙ activation_derivative(output[b][t-1])` and
decrements `t`; the walk therefore equals the spec-side sums `specGradW`/`specGradU`
and ends with the spec-side delta. Stated for `T ≥ 2`, the in-range regime
established by the theorem for claim C5. -/
theorem backward_walk_spec (L : RecurrentLayer) (x h e : ℕ → Vect)
    (hT : 2 ≤ L.time_steps) :
    sampleWalk L (lastStep L.time_steps L.time_steps) x h e 0 0 =
      (specGradW L h e, specGradU L x h e,
       specDelta L h e (L.time_steps - 1)) := by
  have h0 := sampleWalk_spec_aux L x h e hT (L.time_steps - 1) (by omega) (le_refl _) 0 0
  rw [show L.time_steps - 1 - (L.time_steps - 1) = 0 from by omega] at h0
  unfold sampleWalk
  rw [lastStep_self]
  have hd : initialDelta L h e = specDelta L h e 0 := rfl
  rw [hd, h0]
  unfold specGradW specGradU
  rw [Finset.range_eq_Ico]
  simp

/-- Claim C5: in every call to `compute_gradients` the backward do-while body runs
at least once per sample, first at step `time_steps - 1`; with `time_steps = 1` that
first body execution computes the `size_t` index `step - 1 = 0 - 1`, which wraps to
`2 ^ 64 - 1` and is out of range, so every executed step and the index `step - 1` it
reads are in range exactly when `time_steps ≥ 2`. -/
theorem compute_gradients_index_range (L : RecurrentLayer) (hT : 0 < L.time_steps)
    (h64 : L.time_steps < 2 ^ 64) :
    gradSteps L ≠ [] ∧
    (gradSteps L).head? = some (L.time_steps - 1) ∧
    ((∀ s ∈ gradSteps L, s < L.time_steps ∧ sizeTSub1 s < L.time_steps) ↔
      2 ≤ L.time_steps) := by
  unfold gradSteps
  rw [lastStep_self]
  obtain ⟨tl, htl⟩ := bpttSteps_head 0 (L.time_steps - 1)
  refine ⟨by simp [htl], by simp [htl], ?_, ?_⟩
  · intro hall
    by_contra hlt
    have hT1 : L.time_steps = 1 := by omega
    rw [hT1] at hall
    have h0 : (0 : ℕ) ∈ bpttSteps 0 (1 - 1) := by
      simp [bpttSteps]
    have hx := (hall 0 h0).2
    rw [sizeTSub1_zero] at hx
    omega
  · intro h2 s hs
    have hmem := mem_bpttSteps 0 (L.time_steps - 1) (by omega) s hs
    have hsub := sizeTSub1_eq s (by omega) (by omega)
    omega

/-- Claim C6: the truncation mechanism of `compute_gradients` satisfies
`last_step = max(time_steps - truncate, 0)`; the as-written policy fixes
`truncate = time_steps` (no truncation), and setting the truncation bound to 1 makes
the walk accumulate only the single most recent outer products,
`outer(delta, output[b][T-2])` and `outer(delta, input[b][T-2])`, summed over the
batch, ignoring all earlier steps. -/
theorem truncation_mechanism (L : RecurrentLayer) (truncate B : ℕ) (ctx : SGDContext) :
    compute_gradients L B ctx = compute_gradients_trunc L L.time_steps B ctx ∧
    (lastStep L.time_steps truncate : ℤ) = max ((L.time_steps : ℤ) - (truncate : ℤ)) 0 ∧
    (compute_gradients_trunc L 1 B ctx).w_grad =
      ∑ b ∈ Finset.range B, outerM (initialDelta L (ctx.output b) (ctx.errors b))
        (ctx.output b (L.time_steps - 1 - 1)) ∧
    (compute_gradients_trunc L 1 B ctx).u_grad =
      ∑ b ∈ Finset.range B, outerM (initialDelta L (ctx.output b) (ctx.errors b))
        (ctx.input b (L.time_steps - 1 - 1)) := by
  have h2 : (lastStep L.time_steps truncate : ℤ) =
      max ((L.time_steps : ℤ) - (truncate : ℤ)) 0 := by
    unfold lastStep
    rw [Int.toNat_of_nonneg (le_max_right _ _)]
  have h3 : ∀ inp out err : ℕ → Vect,
      sampleWalk L (lastStep L.time_steps 1) inp out err 0 0 =
        (outerM (initialDelta L out err) (out (L.time_steps - 1 - 1)),
         outerM (initialDelta L out err) (inp (L.time_steps - 1 - 1)),
         fun i => matTVec L.hidden_units L.w (initialDelta L out err) i *
           L.deriv (out (L.time_steps - 1 - 1) i)) := by
    intro inp out err
    unfold sampleWalk
    rw [lastStep_eq, bpttSteps_self]
    simp [bpttStep]
  refine ⟨rfl, h2, ?_, ?_⟩
  · rw [compute_gradients_trunc_eq_sum]
    dsimp only
    exact Finset.sum_congr rfl fun b _ => by rw [h3]
  · rw [compute_gradients_trunc_eq_sum]
    dsimp only
    exact Finset.sum_congr rfl fun b _ => by rw [h3]

/-- Claim C7: for every pair of samples and fixed weights, `compute_gradients` on
the two-sample batch produces gradient accumulators equal to the elementwise sum of
the accumulators produced by the two single-sample batches, and swapping the batch
order leaves the result unchanged. -/
theorem batch_additivity (L : RecurrentLayer) (s1 s2 : SampleData) :
    ((compute_gradients L 2 (pairCtx s1 s2)).w_grad =
      (compute_gradients L 1 (singleCtx s1)).w_grad +
        (compute_gradients L 1 (singleCtx s2)).w_grad) ∧
    ((compute_gradients L 2 (pairCtx s1 s2)).u_grad =
      (compute_gradients L 1 (singleCtx s1)).u_grad +
        (compute_gradients L 1 (singleCtx s2)).u_grad) ∧
    ((compute_gradients L 2 (pairCtx s1 s2)).w_grad =
      (compute_gradients L 2 (pairCtx s2 s1)).w_grad) ∧
    ((compute_gradients L 2 (pairCtx s1 s2)).u_grad =
      (compute_gradients L 2 (pairCtx s2 s1)).u_grad) := by
  unfold compute_gradients
  simp only [compute_gradients_trunc_eq_sum]
  refine ⟨?_, ?_, ?_, ?_⟩ <;>
    simp [pairCtx, singleCtx, Finset.sum_range_succ, add_comm]

/-- Claim C2 (amended): after every call to `compute_gradients`, the context comes
back with `W_grad` and `U_grad` zeroed and then set to the batch-summed accumulations
of the backward walk with `last_step = 0` — where `U_grad` pairs each delta with
`input[b][t-1]`, one step behind the chain-rule pairing, so it is not in general the
loss gradient with respect to `U` (see the counterexample) — and every other context
field unchanged; the loss signal enters only through the final time-step slice
`errors[b][T-1]`: contexts agreeing there (and on input and output) produce identical
gradients no matter what the earlier error slices or the incoming accumulators hold. -/
theorem compute_gradients_accumulation (L : RecurrentLayer) (B : ℕ)
    (ctx ctx2 : SGDContext)
    (hin : ctx2.input = ctx.input) (hout : ctx2.output = ctx.output)
    (herr : ∀ b, b < B → ∀ i, ctx2.errors b (L.time_steps - 1) i =
      ctx.errors b (L.time_steps - 1) i) :
    compute_gradients L B ctx =
      { ctx with
        w_grad := ∑ b ∈ Finset.range B,
          (sampleWalk L 0 (ctx.input b) (ctx.output b) (ctx.errors b) 0 0).1,
        u_grad := ∑ b ∈ Finset.range B,
          (sampleWalk L 0 (ctx.input b) (ctx.output b) (ctx.errors b) 0 0).2.1 } ∧
    (compute_gradients L B ctx2).w_grad = (compute_gradients L B ctx).w_grad ∧
    (compute_gradients L B ctx2).u_grad = (compute_gradients L B ctx).u_grad := by
  have hsw : ∀ b, b < B →
      sampleWalk L (lastStep L.time_steps L.time_steps) (ctx2.input b) (ctx2.output b)
          (ctx2.errors b) 0 0 =
        sampleWalk L (lastStep L.time_steps L.time_steps) (ctx.input b) (ctx.output b)
          (ctx.errors b) 0 0 := by
    intro b hb
    unfold sampleWalk
    rw [hin, hout]
    have hdelta : initialDelta L (ctx.output b) (ctx2.errors b) =
        initialDelta L (ctx.output b) (ctx.errors b) := by
      funext i
      unfold initialDelta
      rw [herr b hb i]
    rw [hdelta]
  unfold compute_gradients
  rw [compute_gradients_trunc_eq_sum, compute_gradients_trunc_eq_sum]
  rw [lastStep_self]
  refine ⟨rfl, ?_, ?_⟩
  · dsimp only
    exact Finset.sum_congr rfl fun b hb => by
      rw [lastStep_self] at hsw
      rw [hsw b (Finset.mem_range.mp hb)]
  · dsimp only
    exact Finset.sum_congr rfl fun b hb => by
      rw [lastStep_self] at hsw
      rw [hsw b (Finset.mem_range.mp hb)]

/-- Witness for claim C2 (amended) at the concrete counterexample scenario: the
second context differs in the earlier error slice and in the incoming accumulators,
yet produces the same gradients. -/
theorem compute_gradients_accumulation_witness :
    (compute_gradients c2Layer 1 c2Ctx =
      { c2Ctx with
        w_grad := ∑ b ∈ Finset.range 1,
          (sampleWalk c2Layer 0 (c2Ctx.input b) (c2Ctx.output b) (c2Ctx.errors b) 0 0).1,
        u_grad := ∑ b ∈ Finset.range 1,
          (sampleWalk c2Layer 0 (c2Ctx.input b) (c2Ctx.output b) (c2Ctx.errors b) 0 0).2.1 } ∧
    (compute_gradients c2Layer 1 c2CtxB).w_grad = (compute_gradients c2Layer 1 c2Ctx).w_grad ∧
    (compute_gradients c2Layer 1 c2CtxB).u_grad = (compute_gradients c2Layer 1 c2Ctx).u_grad) :=
  compute_gradients_accumulation c2Layer 1 c2Ctx c2CtxB rfl rfl (fun b hb i => rfl)

/-- Counterexample to claim C2 as stated: in the scenario T = 2, S = 1, H = 1 with
identity activation, `W = [[1/2]]`, `U = [[2]]`, `x = [[1], [2]]` and a loss equal to
the final hidden state (so `errors[0][T-1] = 1`), the derivative of the loss with
respect to the single `U` entry is `x[1] + W·x[0] = 5/2`, but `compute_gradients`
leaves `U_grad = 1` (it pairs delta with `input[t-1]`), so `U_grad` is not the loss
gradient with respect to `U`; the `W_grad` it produces does match the loss derivative
with respect to `W`. -/
theorem compute_gradients_loss_gradient_counterexample :
    deriv c2LossU 2 = 5 / 2 ∧
    (compute_gradients c2Layer 1 c2Ctx).u_grad 0 0 = 1 ∧
    (compute_gradients c2Layer 1 c2Ctx).u_grad 0 0 ≠ deriv c2LossU 2 ∧
    deriv c2LossW (1 / 2) = 2 ∧
    (compute_gradients c2Layer 1 c2Ctx).w_grad 0 0 = deriv c2LossW (1 / 2) := by
  have hU : c2LossU = fun v => 5 / 2 * v := by
    funext v
    simp [c2LossU, hseq, matVec, c2X, c2Layer, Finset.sum_range_one]
    ring
  have hW : c2LossW = fun v => 4 + 2 * v := by
    funext v
    simp [c2LossW, hseq, matVec, c2X, c2Layer, Finset.sum_range_one]
    ring
  have hdU : deriv c2LossU 2 = 5 / 2 := by
    rw [hU]
    have : HasDerivAt (fun v : ℚ => 5 / 2 * v) (5 / 2) 2 := by
      simpa using (hasDerivAt_id (2 : ℚ)).const_mul (5 / 2 : ℚ)
    exact this.deriv
  have hdW : deriv c2LossW (1 / 2) = 2 := by
    rw [hW]
    have : HasDerivAt (fun v : ℚ => 4 + 2 * v) 2 ((1 : ℚ) / 2) := by
      simpa using ((hasDerivAt_id ((1 : ℚ) / 2)).const_mul (2 : ℚ)).const_add (4 : ℚ)
    exact this.deriv
  have hu : (compute_gradients c2Layer 1 c2Ctx).u_grad 0 0 = 1 := by
    norm_num [compute_gradients, compute_gradients_trunc, sampleWalk, bpttSteps, bpttStep,
      lastStep, initialDelta, outerM, matTVec, hseq, matVec, c2Ctx, c2Layer, c2X,
      Finset.sum_range_one, List.range_succ]
  have hw : (compute_gradients c2Layer 1 c2Ctx).w_grad 0 0 = 2 := by
    norm_num [compute_gradients, compute_gradients_trunc, sampleWalk, bpttSteps, bpttStep,
      lastStep, initialDelta, outerM, matTVec, hseq, matVec, c2Ctx, c2Layer, c2X,
      Finset.sum_range_one, List.range_succ]
  refine ⟨hdU, hu, ?_, hdW, ?_⟩
  · rw [hdU, hu]
    norm_num
  · rw [hdW, hw]

/-- Claim C4: the concrete scenario of the spec — T = 2, S = 1, H = 1, identity
activation, `W = [[1/2]]`, `U = [[2]]`, one input sample `x = [[1], [1]]` — gives
`h[0] = 2` and `h[1] = 3` in the forward pass, and with `errors[1] = [1]` and the
full-length truncation, `compute_gradients` produces `W_grad = 2` and `U_grad = 1`
with the delta propagated once to `1/2` and no further accumulation. -/
theorem scenario_check :
    (∃ out, forward_batch scenarioLayer 1 (fun _ _ _ => 0) 1 scenarioInput = some out ∧
      out 0 0 0 = 2 ∧ out 0 1 0 = 3) ∧
    (compute_gradients scenarioLayer 1 scenarioCtx).w_grad 0 0 = 2 ∧
    (compute_gradients scenarioLayer 1 scenarioCtx).u_grad 0 0 = 1 ∧
    (sampleWalk scenarioLayer (lastStep scenarioLayer.time_steps scenarioLayer.time_steps)
      (scenarioInput 0) (scenarioCtx.output 0) (scenarioCtx.errors 0) 0 0).2.2 0 = 1 / 2 := by
  refine ⟨⟨_, rfl, ?_, ?_⟩, ?_, ?_, ?_⟩
  · norm_num [hseq, matVec, scenarioLayer, scenarioInput, Finset.sum_range_one]
  · norm_num [hseq, matVec, scenarioLayer, scenarioInput, Finset.sum_range_one]
  · norm_num [compute_gradients, compute_gradients_trunc, sampleWalk, bpttSteps, bpttStep,
      lastStep, initialDelta, outerM, matTVec, hseq, matVec, scenarioCtx, scenarioLayer,
      scenarioInput, Finset.sum_range_one, List.range_succ]
  · norm_num [compute_gradients, compute_gradients_trunc, sampleWalk, bpttSteps, bpttStep,
      lastStep, initialDelta, outerM, matTVec, hseq, matVec, scenarioCtx, scenarioLayer,
      scenarioInput, Finset.sum_range_one, List.range_succ]
  · norm_num [sampleWalk, bpttSteps, bpttStep, lastStep, initialDelta, outerM, matTVec,
      hseq, matVec, scenarioCtx, scenarioLayer, scenarioInput, Finset.sum_range_one]

/-- Witness for claim C3 at the concrete scenario layer (T = 2). -/
theorem backward_walk_spec_witness :
    sampleWalk scenarioLayer
        (lastStep scenarioLayer.time_steps scenarioLayer.time_steps)
        (scenarioInput 0) (scenarioCtx.output 0) (scenarioCtx.errors 0) 0 0 =
      (specGradW scenarioLayer (scenarioCtx.output 0) (scenarioCtx.errors 0),
       specGradU scenarioLayer (scenarioInput 0) (scenarioCtx.output 0) (scenarioCtx.errors 0),
       specDelta scenarioLayer (scenarioCtx.output 0) (scenarioCtx.errors 0)
         (scenarioLayer.time_steps - 1)) :=
  backward_walk_spec scenarioLayer (scenarioInput 0) (scenarioCtx.output 0)
    (scenarioCtx.errors 0) (by decide)

/-- Witness for claim C5 at the concrete scenario layer (T = 2). -/
theorem compute_gradients_index_range_witness :
    gradSteps scenarioLayer ≠ [] ∧
    (gradSteps scenarioLayer).head? = some (scenarioLayer.time_steps - 1) ∧
    ((∀ s ∈ gradSteps scenarioLayer, s < scenarioLayer.time_steps ∧
        sizeTSub1 s < scenarioLayer.time_steps) ↔ 2 ≤ scenarioLayer.time_steps) :=
  compute_gradients_index_range scenarioLayer (by decide) (by norm_num [scenarioLayer])

end RecurrentLayerSpec
